import Mathlib

/-!
Verification of the Turbie 2-DOF wind-turbine simulator
(`src/turbie_mod.py`, `src/main.py`).

Shallow embedding: Python floats are modelled as real numbers; the
pandas/numpy vector operations are modelled over lists; `scipy`'s
documented behaviour at the boundaries of the source code (the
`interp1d` linear interpolator/extrapolator, the `t_eval` validation of
`solve_ivp`, its immediate-finish corner case for `t0 = t_bound`, and
numpy's nan results on empty slices, modelled as `none`) is embedded
concretely, while the adaptive Runge-Kutta stepping itself is abstracted
as an oracle parameter.
-/

noncomputable section

/-- The value of one linear segment of `scipy.interpolate.interp1d`:
`slope * (x_new - x_lo) + y_lo` with `slope = (y_hi - y_lo)/(x_hi - x_lo)`. -/
def interpSeg (p0 p1 : ℝ × ℝ) (q : ℝ) : ℝ :=
  (p1.2 - p0.2) / (p1.1 - p0.1) * (q - p0.1) + p0.2

/-- `scipy.interpolate.interp1d(x, y, kind="linear", fill_value="extrapolate",
bounds_error=False)` evaluated at `q`, for the table `pts` (pairs `(x, y)`
with `x` strictly increasing).  scipy selects the segment
`clip(searchsorted(x, q), 1, n-1)`: the first segment for `q ≤ x 1`
(linear extrapolation below `x 0`), the matching bracket inside the range,
and the last segment above `x (n-1)` (linear extrapolation above).
The one-point case is unreachable: `interp1d` construction requires at
least 2 data points. -/
def interp1d : List (ℝ × ℝ) → ℝ → ℝ
  | [], _ => 0
  | [p0], _ => p0.2
  | [p0, p1], q => interpSeg p0 p1 q
  | p0 :: p1 :: p2 :: rest, q =>
    if q ≤ p1.1 then interpSeg p0 p1 q else interp1d (p1 :: p2 :: rest) q

/-- A parsed parameter file: a partial mapping from parameter names to
values (the dict built by `load_parameters`' regex loop). -/
def ParamMap : Type := String → Option ℝ

/-- `parameters[k] = v` on a Python dict. -/
def setParam (p : ParamMap) (k : String) (v : ℝ) : ParamMap :=
  fun s => if s = k then some v else p s

/-- The mutation phase of `load_parameters` (`turbie_mod.py` lines 19-22):
`parameters.setdefault("rho", 1.22)`, then, whenever `"Dr"` is present,
`parameters["A"] = np.pi * (0.5 * parameters["Dr"]) ** 2` (this assignment
is unconditional on `"A"`: a parsed `A` is overwritten). -/
def withDefaults (p : ParamMap) : ParamMap :=
  let p1 := match p "rho" with
    | some _ => p
    | none => setParam p "rho" 1.22
  match p1 "Dr" with
  | some d => setParam p1 "A" (Real.pi * (0.5 * d) ^ 2)
  | none => p1

/-- The keys checked by `load_parameters`, in source order. -/
def requiredKeys : List String := ["mt", "mb", "k1", "k2", "c1", "c2", "A", "rho"]

/-- The first key of `ks` absent from `p` (the key whose check raises in
the `for k in [...]` loop), if any. -/
def firstMissing (p : ParamMap) : List String → Option String
  | [] => none
  | k :: ks => if (p k).isNone then some k else firstMissing p ks

/-- Errors of `load_parameters`: `ValueError(f"Missing parameter: {k}")`. -/
inductive LoadErr where
  | missingParameter (k : String)
deriving DecidableEq

/-- `load_parameters`, after file parsing (`turbie_mod.py` lines 19-28):
apply the defaults/derivation phase, then raise for the first missing
required key, else return the mapping. -/
def load_parameters (p : ParamMap) : Except LoadErr ParamMap :=
  let q := withDefaults p
  match firstMissing q requiredKeys with
  | some k => .error (.missingParameter k)
  | none => .ok q

/-- `build_system_matrices` (`turbie_mod.py` lines 52-61):
`M = np.diag([mt, mb])`, `C = [[c2, -c2], [-c2, c1+c2]]`,
`K = [[k2, -k2], [-k2, k1+k2]]`; dict accesses fail (`KeyError`) when a
key is absent, modelled by `Option`. -/
def build_system_matrices (p : ParamMap) :
    Option (Matrix (Fin 2) (Fin 2) ℝ × Matrix (Fin 2) (Fin 2) ℝ × Matrix (Fin 2) (Fin 2) ℝ) :=
  match p "mt", p "mb", p "k1", p "k2", p "c1", p "c2" with
  | some mt, some mb, some k1, some k2, some c1, some c2 =>
      some (Matrix.diagonal ![mt, mb],
            !![c2, -c2; -c2, c1 + c2],
            !![k2, -k2; -k2, k1 + k2])
  | _, _, _, _, _, _ => none

/-- The six physical parameters plus air density and rotor area used by
`rhs`, with the presence guarantee of `load_parameters` already applied
(the closure conversion of the dict captured by `rhs`). -/
structure Params where
  mt : ℝ
  mb : ℝ
  k1 : ℝ
  k2 : ℝ
  c1 : ℝ
  c2 : ℝ
  rho : ℝ
  A : ℝ

/-- The simulation state `y = [xt, vt, xb, vb]` (and likewise a state
derivative), a 4-vector of reals. -/
def Y4 : Type := Fin 4 → ℝ

/-- `rhs` (`turbie_mod.py` lines 79-87): the equations of motion handed
to the solver.  `get_wind` is the wind interpolator closed over by the
source `rhs`; `ct_avg` the constant averaged thrust coefficient. -/
def rhs (params : Params) (ct_avg : ℝ) (get_wind : ℝ → ℝ) (t : ℝ) (y : Y4) : Y4 :=
  let xt := y 0
  let vt := y 1
  let xb := y 2
  let vb := y 3
  let V := get_wind t
  let Fa := 0.5 * params.rho * params.A * V ^ 2 * ct_avg
  let xt_dd := (Fa - params.c2 * (vt - vb) - params.k2 * (xt - xb)) / params.mt
  let xb_dd := (params.c2 * (vt - vb) + params.k2 * (xt - xb) - params.c1 * vb - params.k1 * xb) / params.mb
  ![vt, xt_dd, vb, xb_dd]

/-- The object returned by `scipy.integrate.solve_ivp`: the fields the
source reads (`sol.t`, `sol.y` as the list of state columns) plus the
`sol.success` flag (status ≠ failed) that the source never reads. -/
structure IvpSol where
  success : Bool
  t : List ℝ
  y : List Y4

/-- Errors raised on the `simulate_single_case` path: `interp1d`
construction with fewer than 2 data points, and `solve_ivp`'s `t_eval`
validation (`"Values in t_eval are not within t_span."`,
`"Values in t_eval are not properly sorted."`). -/
inductive SimErr where
  | interpTooFewPoints
  | tEvalOutOfSpan
  | tEvalNotSorted
deriving DecidableEq

/-- The adaptive Runge-Kutta integration itself (RK45 stepping), left
abstract: any function producing a result object from the derivative
function, the time span, the initial state and the output grid. -/
def Oracle : Type := (ℝ → Y4 → Y4) → ℝ × ℝ → Y4 → List ℝ → IvpSol

/-- `min` of a pandas column (`wind_df["Time"].min()`). -/
def listMin : List ℝ → ℝ
  | [] => 0
  | t :: ts => ts.foldl min t

/-- `max` of a pandas column (`wind_df["Time"].max()`). -/
def listMax : List ℝ → ℝ
  | [] => 0
  | t :: ts => ts.foldl max t

/-- `scipy.integrate.solve_ivp(fun, t_span, y0, t_eval)`: the `t_eval`
validation (range, then monotonicity in the direction of integration),
then the documented corner case — if `t0 = tf` the solver finishes
without stepping and the trajectory is the initial state at every
requested time (`ConstantDenseOutput`) — otherwise the adaptive
integration `oracle`. -/
def solve_ivp (oracle : Oracle) (f : ℝ → Y4 → Y4) (t_span : ℝ × ℝ) (y0 : Y4)
    (t_eval : List ℝ) : Except SimErr IvpSol :=
  let t0 := t_span.1
  let tf := t_span.2
  if ¬ (∀ t ∈ t_eval, min t0 tf ≤ t ∧ t ≤ max t0 tf) then
    .error .tEvalOutOfSpan
  else if (t0 < tf ∧ ¬ t_eval.Chain' (· < ·)) ∨ (tf < t0 ∧ ¬ t_eval.Chain' (· > ·)) then
    .error .tEvalNotSorted
  else if t0 = tf then
    .ok ⟨true, t_eval, t_eval.map fun _ => y0⟩
  else
    .ok (oracle f t_span y0 t_eval)

/-- `np.mean` over a 1-d slice: the arithmetic mean, `nan` (modelled as
`none`) on an empty slice. -/
def npMean (l : List ℝ) : Option ℝ :=
  match l with
  | [] => none
  | _ => some (l.sum / (l.length : ℝ))

/-- `np.std` over a 1-d slice: the population standard deviation
`sqrt(mean((x - mean x)^2))` (divisor `N`, `ddof = 0`), `nan` (modelled
as `none`) on an empty slice. -/
def npStd (l : List ℝ) : Option ℝ :=
  match l with
  | [] => none
  | _ => some (Real.sqrt ((l.map fun x => (x - l.sum / (l.length : ℝ)) ^ 2).sum / (l.length : ℝ)))

/-- The samples kept by the statistics mask `sol.t >= t_skip`
(`turbie_mod.py` line 95), as pairs of a time and a state column. -/
def keptSamples (sol : IvpSol) (t_skip : ℝ) : List (ℝ × Y4) :=
  (sol.t.zip sol.y).filter fun s => t_skip ≤ s.1

/-- The case statistics dict of `turbie_mod.py` lines 96-103. -/
structure CaseStats where
  V_avg : ℝ
  CT_avg : ℝ
  xt_mean : Option ℝ
  xt_std : Option ℝ
  xb_mean : Option ℝ
  xb_std : Option ℝ

/-- The statistics step of `simulate_single_case` (`turbie_mod.py` lines
94-103): filter on `sol.t >= t_skip`, then `np.mean`/`np.std` of the
tower (`sol.y[0]`) and blade (`sol.y[2]`) displacement rows. -/
def computeStats (sol : IvpSol) (t_skip v_avg ct_avg : ℝ) : CaseStats :=
  let kept := keptSamples sol t_skip
  let xts := kept.map fun s => s.2 0
  let xbs := kept.map fun s => s.2 2
  { V_avg := v_avg
    CT_avg := ct_avg
    xt_mean := npMean xts
    xt_std := npStd xts
    xb_mean := npMean xbs
    xb_std := npStd xbs }

/-- `simulate_single_case` (`turbie_mod.py` lines 65-104).  `wind` is the
wind record as `(Time, V)` pairs, `ct_interp` the thrust-coefficient
interpolator built in `main.py`, `oracle` the abstracted adaptive
stepping; the source default for `t_skip` is `60.0`.  Order as in the
source: the averages (lines 70-71), the wind interpolator construction
(lines 73-77, raising for fewer than 2 data points), the time span from
the column min/max and `t_eval` from the time stamps (lines 89-90),
`solve_ivp` from `y0 = np.zeros(4)` (lines 91-92), then the statistics
(lines 94-103); the solver result is never inspected for success. -/
def simulate_single_case (oracle : Oracle) (params : Params) (ct_interp : ℝ → ℝ)
    (wind : List (ℝ × ℝ)) (t_skip : ℝ) : Except SimErr (IvpSol × CaseStats) :=
  let v_avg := (wind.map Prod.snd).sum / ((wind.map Prod.snd).length : ℝ)
  let ct_avg := ct_interp v_avg
  if wind.length < 2 then
    .error .interpTooFewPoints
  else
    let get_wind := interp1d wind
    let f := rhs params ct_avg get_wind
    let times := wind.map Prod.fst
    let t_span := (listMin times, listMax times)
    let y0 : Y4 := fun _ => 0
    match solve_ivp oracle f t_span y0 times with
    | .error e => .error e
    | .ok sol => .ok (sol, computeStats sol t_skip v_avg ct_avg)

/-- `simulate_single_case` with its two shared arguments (the parameter
set and the wind record) threaded through an explicit state, to express
that the call leaves both untouched: the source only ever reads them. -/
def simulate_single_case_st (oracle : Oracle) (ct_interp : ℝ → ℝ) (t_skip : ℝ) :
    StateM (Params × List (ℝ × ℝ)) (Except SimErr (IvpSol × CaseStats)) := do
  let s ← get
  pure (simulate_single_case oracle s.1 ct_interp s.2 t_skip)

/-- The parameter mapping `{mt=1, mb=1, k1=2, k2=3, c1=4, c2=5}` of the
concrete instance of C2. -/
def pC2 : ParamMap := fun s =>
  if s = "mt" then some 1
  else if s = "mb" then some 1
  else if s = "k1" then some 2
  else if s = "k2" then some 3
  else if s = "c1" then some 4
  else if s = "c2" then some 5
  else none

/-- A concrete nominal parameter set for the example runs. -/
def pEx : Params :=
  { mt := 1, mb := 1, k1 := 1, k2 := 1, c1 := 1, c2 := 1, rho := 1.22, A := 100 }

/-- A concrete constant thrust-coefficient interpolator. -/
def ctOne : ℝ → ℝ := fun _ => 1

/-- A concrete solver oracle whose run succeeds and reports the initial
state at every requested time. -/
def okOracle : Oracle := fun _ _ y0 t_eval => ⟨true, t_eval, t_eval.map fun _ => y0⟩

/-- A concrete solver oracle whose run fails (scipy status `-1`: the
required step size underflows because the solution diverges or the
tolerance cannot be met), reporting no completed samples. -/
def failOracle : Oracle := fun _ _ _ _ => ⟨false, [], []⟩

/-- A concrete two-sample wind record over `[0, 100]` with mean speed 9. -/
def windC4 : List (ℝ × ℝ) := [(0, 8), (100, 10)]

/-- The trajectory `okOracle` reports for `windC4`. -/
def solC4 : IvpSol := ⟨true, [0, 100], [fun _ => 0, fun _ => 0]⟩

/-- A concrete wind record whose two samples carry the same time stamp
`5`, so that `t_max = t_min` while the record has 2 points. -/
def windC6 : List (ℝ × ℝ) := [(5, 10), (5, 12)]

/-- A concrete wind record with strictly increasing times. -/
def windC7 : List (ℝ × ℝ) := [(0, 1), (100, 1)]

/-- A concrete ten-sample trajectory at times `0,…,9`; with
`t_skip = 6`, exactly the last four samples qualify.  Their tower
displacements are `1, 1, 3, 3` and their blade displacements are all
`2`. -/
def solC5 : IvpSol :=
  ⟨true, [0, 1, 2, 3, 4, 5, 6, 7, 8, 9],
    [![9, 0, 9, 0], ![9, 0, 9, 0], ![9, 0, 9, 0], ![9, 0, 9, 0], ![9, 0, 9, 0],
     ![9, 0, 9, 0], ![1, 0, 2, 0], ![1, 0, 2, 0], ![3, 0, 2, 0], ![3, 0, 2, 0]]⟩

/-- A concrete one-sample trajectory whose only time stamp `5` is below
`t_skip = 60`: the filtered subset is empty. -/
def solC9 : IvpSol := ⟨true, [5], [![7, 0, 8, 0]]⟩

/-- A parsed parameter file holding all six structural parameters, an
explicit `A = 99` and a rotor diameter `Dr = 0` (and no `rho`). -/
def pC8 : ParamMap := fun s =>
  if s = "mt" then some 1
  else if s = "mb" then some 1
  else if s = "k1" then some 1
  else if s = "k2" then some 1
  else if s = "c1" then some 1
  else if s = "c2" then some 1
  else if s = "A" then some 99
  else if s = "Dr" then some 0
  else none

/-- A parsed parameter file holding the six structural parameters and a
rotor diameter `Dr = 2`, with `A` and `rho` both absent. -/
def pC8b : ParamMap := fun s =>
  if s = "mt" then some 1
  else if s = "mb" then some 1
  else if s = "k1" then some 1
  else if s = "k2" then some 1
  else if s = "c1" then some 1
  else if s = "c2" then some 1
  else if s = "Dr" then some 2
  else none

/-- C1: for every parameter set, constant thrust coefficient `CT_avg`,
wind signal `V(t)` and state `y = [xt, vt, xb, vb]`, the state-derivative
function used by the integrator returns exactly `[vt, xt'', vb, xb'']`
with `Fa(t) = 0.5*rho*A*V(t)^2*CT_avg`,
`xt'' = (Fa(t) - c2*(vt-vb) - k2*(xt-xb))/mt` and
`xb'' = (c2*(vt-vb) + k2*(xt-xb) - c1*vb - k1*xb)/mb`. -/
theorem rhs_state_derivative (p : Params) (ct : ℝ) (w : ℝ → ℝ) (t : ℝ) (y : Y4) :
    rhs p ct w t y =
      ![y 1,
        (0.5 * p.rho * p.A * w t ^ 2 * ct - p.c2 * (y 1 - y 3) - p.k2 * (y 0 - y 2)) / p.mt,
        y 3,
        (p.c2 * (y 1 - y 3) + p.k2 * (y 0 - y 2) - p.c1 * y 3 - p.k1 * y 2) / p.mb] := rfl

/-- C2: for every parameter mapping containing the keys `mt`, `mb`, `k1`,
`k2`, `c1`, `c2`, `build_system_matrices` returns `M = diag(mt, mb)`,
`C = [[c2, -c2], [-c2, c1+c2]]` and `K = [[k2, -k2], [-k2, k1+k2]]`. -/
theorem build_system_matrices_spec (p : ParamMap) (mt mb k1 k2 c1 c2 : ℝ)
    (hmt : p "mt" = some mt) (hmb : p "mb" = some mb) (hk1 : p "k1" = some k1)
    (hk2 : p "k2" = some k2) (hc1 : p "c1" = some c1) (hc2 : p "c2" = some c2) :
    build_system_matrices p =
      some (!![mt, 0; 0, mb], !![c2, -c2; -c2, c1 + c2], !![k2, -k2; -k2, k1 + k2]) := by
  unfold build_system_matrices
  rw [hmt, hmb, hk1, hk2, hc1, hc2]
  have hdiag : Matrix.diagonal ![mt, mb] = !![mt, 0; 0, mb] := by
    ext i j
    fin_cases i <;> fin_cases j <;> simp [Matrix.diagonal]
  dsimp only
  rw [hdiag]

/-- C2, witness: for `{mt=1, mb=1, k1=2, k2=3, c1=4, c2=5}` the matrices
are `M = diag(1,1)`, `C = [[5,-5],[-5,9]]`, `K = [[3,-3],[-3,5]]`. -/
theorem build_system_matrices_witness :
    build_system_matrices pC2 =
      some (!![1, 0; 0, 1], !![5, -5; -5, 9], !![3, -3; -3, 5]) := by
  rw [build_system_matrices_spec pC2 1 1 2 3 4 5 rfl rfl rfl rfl rfl rfl]
  norm_num

/-- In a table with strictly increasing abscissae, the head abscissa is
at most any later abscissa. -/
theorem chain_fst_get_le :
    ∀ (j : ℕ) (m : List (ℝ × ℝ)), m.Chain' (fun a b => a.1 < b.1) →
    ∀ (hj : j < m.length) (h0 : 0 < m.length),
      (m.get ⟨0, h0⟩).1 ≤ (m.get ⟨j, hj⟩).1 := by
  intro j
  induction j with
  | zero => intro m _ hj h0; exact le_refl _
  | succ j ih =>
    intro m hc hj h0
    match m, hj with
    | a :: b :: m2, hj =>
      have hab : a.1 < b.1 := (List.chain'_cons.mp hc).1
      have htail : (b :: m2).Chain' (fun a b => a.1 < b.1) := (List.chain'_cons.mp hc).2
      have hj2 : j < (b :: m2).length := Nat.lt_of_succ_lt_succ hj
      have := ih (b :: m2) htail hj2 (Nat.succ_pos _)
      exact le_of_lt (lt_of_lt_of_le hab this)

/-- Strict version of `chain_fst_get_le` for a positive index. -/
theorem chain_fst_get_lt :
    ∀ (j : ℕ) (m : List (ℝ × ℝ)), m.Chain' (fun a b => a.1 < b.1) →
    ∀ (hj : j < m.length) (h0 : 0 < m.length), 0 < j →
      (m.get ⟨0, h0⟩).1 < (m.get ⟨j, hj⟩).1 := by
  intro j
  match j with
  | 0 => intro m _ hj h0 h; exact absurd h (lt_irrefl 0)
  | j + 1 =>
    intro m hc hj h0 _
    match m, hj with
    | a :: b :: m2, hj =>
      have hab : a.1 < b.1 := (List.chain'_cons.mp hc).1
      have htail : (b :: m2).Chain' (fun a b => a.1 < b.1) := (List.chain'_cons.mp hc).2
      have hj2 : j < (b :: m2).length := Nat.lt_of_succ_lt_succ hj
      have := chain_fst_get_le j (b :: m2) htail hj2 (Nat.succ_pos _)
      exact lt_of_lt_of_le hab this

/-- At the right node of a segment with distinct abscissae, the segment
formula returns the right ordinate. -/
theorem interpSeg_right (p0 p1 : ℝ × ℝ) (h : p0.1 < p1.1) :
    interpSeg p0 p1 p1.1 = p1.2 := by
  have hne : p1.1 - p0.1 ≠ 0 := sub_ne_zero_of_ne (ne_of_gt h)
  unfold interpSeg
  rw [div_mul_cancel₀ _ hne]
  ring

/-- At the left node of a segment, the segment formula returns the left
ordinate. -/
theorem interpSeg_left (p0 p1 : ℝ × ℝ) : interpSeg p0 p1 p0.1 = p0.2 := by
  unfold interpSeg
  rw [sub_self, mul_zero, zero_add]

/-- Bracketing: on a strictly increasing table, a query with
`x i ≤ q < x (i+1)` is evaluated by the linear formula of segment `i`. -/
theorem interp1d_bracket :
    ∀ (pts : List (ℝ × ℝ)), pts.Chain' (fun a b => a.1 < b.1) →
    ∀ (i : ℕ) (hi : i + 1 < pts.length) (q : ℝ),
      (pts.get ⟨i, Nat.lt_of_succ_lt hi⟩).1 ≤ q → q < (pts.get ⟨i + 1, hi⟩).1 →
      interp1d pts q = interpSeg (pts.get ⟨i, Nat.lt_of_succ_lt hi⟩) (pts.get ⟨i + 1, hi⟩) q := by
  intro pts
  induction pts with
  | nil => intro _ i hi; simp at hi
  | cons p0 rest ih =>
    intro hc i hi q hx hy
    match rest, hi with
    | p1 :: rest2, hi =>
      have h01 : p0.1 < p1.1 := (List.chain'_cons.mp hc).1
      have htail : (p1 :: rest2).Chain' (fun a b => a.1 < b.1) := (List.chain'_cons.mp hc).2
      match i with
      | 0 =>
        -- first segment: q < p1.1 forces the first branch
        have hq1 : q ≤ p1.1 := le_of_lt hy
        cases rest2 with
        | nil => rfl
        | cons p2 rest3 =>
          show (if q ≤ p1.1 then interpSeg p0 p1 q else interp1d (p1 :: p2 :: rest3) q) = _
          rw [if_pos hq1]
          rfl
      | i + 1 =>
        cases rest2 with
        | nil =>
          simp only [List.length_cons, List.length_nil] at hi
          omega
        | cons p2 rest3 =>
          have hi2 : i + 1 < (p1 :: p2 :: rest3).length := Nat.lt_of_succ_lt_succ hi
          have hile : i < (p1 :: p2 :: rest3).length := Nat.lt_of_succ_lt hi2
          have hx2 : ((p1 :: p2 :: rest3).get ⟨i, hile⟩).1 ≤ q := hx
          have hy2 : q < ((p1 :: p2 :: rest3).get ⟨i + 1, hi2⟩).1 := hy
          have hp1le : p1.1 ≤ ((p1 :: p2 :: rest3).get ⟨i, hile⟩).1 :=
            chain_fst_get_le i (p1 :: p2 :: rest3) htail hile (Nat.succ_pos _)
          by_cases hql : q ≤ p1.1
          · -- boundary: q = p1.1 and i = 0
            have hqe : q = p1.1 := le_antisymm hql (le_trans hp1le hx2)
            have hizero : i = 0 := by
              by_contra hne
              have := chain_fst_get_lt i (p1 :: p2 :: rest3) htail hile (Nat.succ_pos _)
                (Nat.pos_of_ne_zero hne)
              exact absurd (lt_of_lt_of_le this hx2) (not_lt.mpr hql)
            subst hizero
            show (if q ≤ p1.1 then interpSeg p0 p1 q else interp1d (p1 :: p2 :: rest3) q) = _
            rw [if_pos hql, hqe]
            have h12 : p1.1 < p2.1 := (List.chain'_cons.mp htail).1
            rw [interpSeg_right p0 p1 h01]
            show p1.2 = interpSeg p1 p2 p1.1
            rw [interpSeg_left]
          · -- strictly right of p1: recurse
            show (if q ≤ p1.1 then interpSeg p0 p1 q else interp1d (p1 :: p2 :: rest3) q) = _
            rw [if_neg hql]
            exact ih htail i hi2 q hx2 hy2

/-- Extrapolation below the range: a query left of the first abscissa is
evaluated by the first segment's linear formula (its slope continued). -/
theorem interp1d_below (p0 p1 : ℝ × ℝ) (rest : List (ℝ × ℝ))
    (hc : (p0 :: p1 :: rest).Chain' (fun a b => a.1 < b.1)) (q : ℝ) (hq : q < p0.1) :
    interp1d (p0 :: p1 :: rest) q = interpSeg p0 p1 q := by
  have h01 : p0.1 < p1.1 := (List.chain'_cons.mp hc).1
  cases rest with
  | nil => rfl
  | cons p2 rest3 =>
    show (if q ≤ p1.1 then interpSeg p0 p1 q else interp1d (p1 :: p2 :: rest3) q) = _
    rw [if_pos (le_of_lt (hq.trans h01))]

/-- Extrapolation above the range: a query right of every abscissa is
evaluated by the last segment's linear formula (its slope continued). -/
theorem interp1d_above :
    ∀ (pts : List (ℝ × ℝ)), pts.Chain' (fun a b => a.1 < b.1) →
    ∀ (h2 : 2 ≤ pts.length) (q : ℝ), (∀ p ∈ pts, p.1 < q) →
      interp1d pts q =
        interpSeg (pts.get ⟨pts.length - 2, by omega⟩) (pts.get ⟨pts.length - 1, by omega⟩) q := by
  intro pts
  induction pts with
  | nil => intro _ h2; simp at h2
  | cons p0 rest ih =>
    intro hc h2 q hq
    match rest, h2 with
    | p1 :: rest2, h2 =>
      have htail : (p1 :: rest2).Chain' (fun a b => a.1 < b.1) := (List.chain'_cons.mp hc).2
      cases rest2 with
      | nil => rfl
      | cons p2 rest3 =>
        have hqp1 : p1.1 < q := hq p1 (by simp)
        show (if q ≤ p1.1 then interpSeg p0 p1 q else interp1d (p1 :: p2 :: rest3) q) = _
        rw [if_neg (not_le.mpr hqp1)]
        have h2t : 2 ≤ (p1 :: p2 :: rest3).length := by simp
        have hqt : ∀ p ∈ p1 :: p2 :: rest3, p.1 < q := by
          intro p hp
          exact hq p (List.mem_cons_of_mem p0 hp)
        rw [ih htail h2t q hqt]
        congr 1

/-- C3: for every table of at least 2 points sorted strictly by
abscissa, the linear interpolators built with
`interp1d(..., kind="linear", fill_value="extrapolate", bounds_error=False)`
(thrust coefficient vs. wind speed, wind speed vs. time) evaluate a query
bracketed by two samples by the linear formula of that segment, a query
below the range by linearly continuing the first segment's slope, and a
query above the range by linearly continuing the last segment's slope —
never clamping and never raising. -/
theorem interp1d_policy (pts : List (ℝ × ℝ))
    (hs : pts.Chain' (fun a b => a.1 < b.1)) (h2 : 2 ≤ pts.length) (q : ℝ) :
    (∀ (i : ℕ) (hi : i + 1 < pts.length),
        (pts.get ⟨i, Nat.lt_of_succ_lt hi⟩).1 ≤ q → q < (pts.get ⟨i + 1, hi⟩).1 →
        interp1d pts q = interpSeg (pts.get ⟨i, Nat.lt_of_succ_lt hi⟩) (pts.get ⟨i + 1, hi⟩) q)
    ∧ (q < (pts.get ⟨0, by omega⟩).1 →
        interp1d pts q = interpSeg (pts.get ⟨0, by omega⟩) (pts.get ⟨1, by omega⟩) q)
    ∧ ((∀ p ∈ pts, p.1 < q) →
        interp1d pts q =
          interpSeg (pts.get ⟨pts.length - 2, by omega⟩) (pts.get ⟨pts.length - 1, by omega⟩) q) := by
  refine ⟨fun i hi => interp1d_bracket pts hs i hi q, ?_, interp1d_above pts hs h2 q⟩
  intro hq
  match pts, h2 with
  | p0 :: p1 :: rest, _ => exact interp1d_below p0 p1 rest hs q hq

/-- C3, witness: for the table `(0,0),(1,1)`, `evaluate(0.5) = 0.5`
(interior), `evaluate(2.0) = 2.0` and `evaluate(-1.0) = -1.0`
(extrapolation continuing the single segment's slope). -/
theorem interp1d_policy_witness :
    interp1d [((0 : ℝ), (0 : ℝ)), (1, 1)] 0.5 = 0.5
    ∧ interp1d [((0 : ℝ), (0 : ℝ)), (1, 1)] 2.0 = 2.0
    ∧ interp1d [((0 : ℝ), (0 : ℝ)), (1, 1)] (-1.0) = -1.0 := by
  have hs : List.Chain' (fun a b : ℝ × ℝ => a.1 < b.1) [((0 : ℝ), (0 : ℝ)), (1, 1)] := by
    norm_num [List.chain'_cons]
  have h2 : 2 ≤ ([((0 : ℝ), (0 : ℝ)), (1, 1)]).length := by norm_num
  refine ⟨?_, ?_, ?_⟩
  · have h := (interp1d_policy [((0 : ℝ), (0 : ℝ)), (1, 1)] hs h2 0.5).1 0 (by norm_num)
      (by norm_num) (by norm_num)
    rw [h]
    norm_num [interpSeg]
  · have h := (interp1d_policy [((0 : ℝ), (0 : ℝ)), (1, 1)] hs h2 2.0).2.2 (by norm_num)
    rw [h]
    norm_num [interpSeg]
  · have h := (interp1d_policy [((0 : ℝ), (0 : ℝ)), (1, 1)] hs h2 (-1.0)).2.1 (by norm_num)
    rw [h]
    norm_num [interpSeg]

/-- C4: whenever `simulate_single_case` returns, the statistics record's
`V_avg` is exactly the arithmetic mean of the wind record's `V` column,
its `CT_avg` is the thrust-coefficient interpolator evaluated once at
that `V_avg`, and the integration it ran is `solve_ivp` on the
state-derivative `rhs` closed over that single constant `CT_avg` while
the force term reads the instantaneous wind interpolator. -/
theorem simulate_averages (oracle : Oracle) (p : Params) (ct_interp : ℝ → ℝ)
    (wind : List (ℝ × ℝ)) (t_skip : ℝ) (sol : IvpSol) (st : CaseStats)
    (h : simulate_single_case oracle p ct_interp wind t_skip = .ok (sol, st)) :
    st.V_avg = (wind.map Prod.snd).sum / ((wind.map Prod.snd).length : ℝ)
    ∧ st.CT_avg = ct_interp ((wind.map Prod.snd).sum / ((wind.map Prod.snd).length : ℝ))
    ∧ solve_ivp oracle
        (rhs p (ct_interp ((wind.map Prod.snd).sum / ((wind.map Prod.snd).length : ℝ)))
          (interp1d wind))
        (listMin (wind.map Prod.fst), listMax (wind.map Prod.fst)) (fun _ => 0)
        (wind.map Prod.fst) = .ok sol := by
  dsimp only [simulate_single_case] at h
  split at h
  · simp at h
  · split at h
    · simp at h
    · rename_i heq
      simp only [Except.ok.injEq, Prod.mk.injEq] at h
      obtain ⟨rfl, rfl⟩ := h
      exact ⟨rfl, rfl, heq⟩

/-- A `min`-fold is below its initial accumulator. -/
theorem foldl_min_le_init : ∀ (ts : List ℝ) (a : ℝ), ts.foldl min a ≤ a := by
  intro ts
  induction ts with
  | nil => intro a; exact le_refl a
  | cons t ts ih => intro a; exact le_trans (ih (min a t)) (min_le_left a t)

/-- A `min`-fold is below every list element. -/
theorem foldl_min_le_mem : ∀ (ts : List ℝ) (a x : ℝ), x ∈ ts → ts.foldl min a ≤ x := by
  intro ts
  induction ts with
  | nil => intro a x hx; exact absurd hx (List.not_mem_nil x)
  | cons t ts ih =>
    intro a x hx
    rcases List.mem_cons.mp hx with rfl | hx2
    · exact le_trans (foldl_min_le_init ts (min a x)) (min_le_right a x)
    · exact ih (min a t) x hx2

/-- A `max`-fold is above its initial accumulator. -/
theorem le_foldl_max_init : ∀ (ts : List ℝ) (a : ℝ), a ≤ ts.foldl max a := by
  intro ts
  induction ts with
  | nil => intro a; exact le_refl a
  | cons t ts ih => intro a; exact le_trans (le_max_left a t) (ih (max a t))

/-- A `max`-fold is above every list element. -/
theorem le_foldl_max_mem : ∀ (ts : List ℝ) (a x : ℝ), x ∈ ts → x ≤ ts.foldl max a := by
  intro ts
  induction ts with
  | nil => intro a x hx; exact absurd hx (List.not_mem_nil x)
  | cons t ts ih =>
    intro a x hx
    rcases List.mem_cons.mp hx with rfl | hx2
    · exact le_trans (le_max_right a x) (le_foldl_max_init ts (max a x))
    · exact ih (max a t) x hx2

/-- The column minimum is below every entry. -/
theorem listMin_le_mem (l : List ℝ) (x : ℝ) (hx : x ∈ l) : listMin l ≤ x := by
  cases l with
  | nil => exact absurd hx (List.not_mem_nil x)
  | cons t ts =>
    rcases List.mem_cons.mp hx with rfl | hx2
    · exact foldl_min_le_init ts x
    · exact foldl_min_le_mem ts t x hx2

/-- The column maximum is above every entry. -/
theorem le_listMax_mem (l : List ℝ) (x : ℝ) (hx : x ∈ l) : x ≤ listMax l := by
  cases l with
  | nil => exact absurd hx (List.not_mem_nil x)
  | cons t ts =>
    rcases List.mem_cons.mp hx with rfl | hx2
    · exact le_foldl_max_init ts x
    · exact le_foldl_max_mem ts t x hx2

/-- On a nonempty column the minimum is below the maximum. -/
theorem listMin_le_listMax (l : List ℝ) (h : l ≠ []) : listMin l ≤ listMax l := by
  cases l with
  | nil => exact absurd rfl h
  | cons t ts =>
    exact le_trans (listMin_le_mem (t :: ts) t (List.mem_cons_self t ts))
      (le_listMax_mem (t :: ts) t (List.mem_cons_self t ts))

/-- `solve_ivp` on the span given by a nonempty output grid's own
min/max: both validations pass whenever the grid is strictly increasing
or degenerate, leaving the corner case or the adaptive oracle. -/
theorem solve_ivp_checks_pass (oracle : Oracle) (f : ℝ → Y4 → Y4) (y0 : Y4)
    (t_eval : List ℝ) (hne : t_eval ≠ [])
    (hchain : listMin t_eval < listMax t_eval → t_eval.Chain' (· < ·)) :
    solve_ivp oracle f (listMin t_eval, listMax t_eval) y0 t_eval =
      if listMin t_eval = listMax t_eval then .ok ⟨true, t_eval, t_eval.map fun _ => y0⟩
      else .ok (oracle f (listMin t_eval, listMax t_eval) y0 t_eval) := by
  have hminmax : listMin t_eval ≤ listMax t_eval := listMin_le_listMax t_eval hne
  have hall : ∀ t ∈ t_eval,
      min (listMin t_eval) (listMax t_eval) ≤ t ∧ t ≤ max (listMin t_eval) (listMax t_eval) := by
    intro t ht
    constructor
    · rw [min_eq_left hminmax]
      exact listMin_le_mem t_eval t ht
    · rw [max_eq_right hminmax]
      exact le_listMax_mem t_eval t ht
  have hsorted : ¬ ((listMin t_eval < listMax t_eval ∧ ¬ t_eval.Chain' (· < ·))
      ∨ (listMax t_eval < listMin t_eval ∧ ¬ t_eval.Chain' (· > ·))) := by
    rintro (⟨hlt, hnc⟩ | ⟨hlt, _⟩)
    · exact hnc (hchain hlt)
    · exact absurd hlt (not_lt.mpr hminmax)
  unfold solve_ivp
  rw [if_neg (not_not_intro hall), if_neg hsorted]

/-- `simulate_single_case` with fewer than 2 wind samples stops at the
wind-interpolator construction. -/
theorem simulate_err_of_short (oracle : Oracle) (p : Params) (ct_interp : ℝ → ℝ)
    (wind : List (ℝ × ℝ)) (t_skip : ℝ) (h : wind.length < 2) :
    simulate_single_case oracle p ct_interp wind t_skip = .error .interpTooFewPoints := by
  dsimp only [simulate_single_case]
  rw [if_pos h]

/-- `simulate_single_case` unconditionally packages any successful
`solve_ivp` outcome with the statistics computed from it. -/
theorem simulate_ok_of_solve (oracle : Oracle) (p : Params) (ct_interp : ℝ → ℝ)
    (wind : List (ℝ × ℝ)) (t_skip : ℝ) (sol : IvpSol)
    (h2 : ¬ (wind.length < 2))
    (hs : solve_ivp oracle
        (rhs p (ct_interp ((wind.map Prod.snd).sum / ((wind.map Prod.snd).length : ℝ)))
          (interp1d wind))
        (listMin (wind.map Prod.fst), listMax (wind.map Prod.fst)) (fun _ => 0)
        (wind.map Prod.fst) = .ok sol) :
    simulate_single_case oracle p ct_interp wind t_skip =
      .ok (sol, computeStats sol t_skip
        ((wind.map Prod.snd).sum / ((wind.map Prod.snd).length : ℝ))
        (ct_interp ((wind.map Prod.snd).sum / ((wind.map Prod.snd).length : ℝ)))) := by
  dsimp only [simulate_single_case]
  rw [if_neg h2, hs]

/-- C4, witness: the two-sample record `windC4` has mean speed `9`; the
statistics of a completed run carry exactly `V_avg = 9` and
`CT_avg = ct_interp(9) = 1`. -/
theorem simulate_averages_witness :
    (simulate_single_case okOracle pEx ctOne windC4 60).toOption.map
        (fun r => (r.2.V_avg, r.2.CT_avg)) = some (9, 1) := by
  have hne : windC4.map Prod.fst ≠ [] := by simp [windC4]
  have hchain : (windC4.map Prod.fst).Chain' (· < ·) := by
    norm_num [windC4, List.chain'_cons]
  have hmin : listMin (windC4.map Prod.fst) = 0 := by
    norm_num [windC4, listMin, min_def]
  have hmax : listMax (windC4.map Prod.fst) = 100 := by
    norm_num [windC4, listMax, max_def]
  have hneq : ¬ (listMin (windC4.map Prod.fst) = listMax (windC4.map Prod.fst)) := by
    rw [hmin, hmax]
    norm_num
  have hsolve := solve_ivp_checks_pass okOracle
    (rhs pEx (ctOne ((windC4.map Prod.snd).sum / ((windC4.map Prod.snd).length : ℝ)))
      (interp1d windC4))
    (fun _ => 0) (windC4.map Prod.fst) hne (fun _ => hchain)
  rw [if_neg hneq] at hsolve
  have hok : okOracle
      (rhs pEx (ctOne ((windC4.map Prod.snd).sum / ((windC4.map Prod.snd).length : ℝ)))
        (interp1d windC4))
      (listMin (windC4.map Prod.fst), listMax (windC4.map Prod.fst)) (fun _ => 0)
      (windC4.map Prod.fst) = solC4 := by
    simp [okOracle, windC4, solC4]
  rw [hok] at hsolve
  have hrun := simulate_ok_of_solve okOracle pEx ctOne windC4 60 solC4
    (by norm_num [windC4]) hsolve
  obtain ⟨h1, h2, -⟩ := simulate_averages okOracle pEx ctOne windC4 60 solC4 _ hrun
  rw [hrun]
  simp only [Except.toOption, Option.map]
  rw [h1, h2]
  norm_num [windC4, ctOne]

/-- `np.mean` on a nonempty slice is the sum over the count. -/
theorem npMean_of_ne_nil (l : List ℝ) (h : l ≠ []) :
    npMean l = some (l.sum / (l.length : ℝ)) := by
  cases l with
  | nil => exact absurd rfl h
  | cons x xs => rfl

/-- `np.std` on a nonempty slice is the population formula. -/
theorem npStd_of_ne_nil (l : List ℝ) (h : l ≠ []) :
    npStd l = some (Real.sqrt ((l.map fun x => (x - l.sum / (l.length : ℝ)) ^ 2).sum
      / (l.length : ℝ))) := by
  cases l with
  | nil => exact absurd rfl h
  | cons x xs => rfl

/-- C5: the statistics step keeps exactly the samples with `t ≥ t_skip`
and, over that filtered subset only, computes the arithmetic mean and the
population standard deviation — divisor the filtered count `N`, not
`N - 1` — of the tower and blade displacements. -/
theorem computeStats_population (sol : IvpSol) (t_skip v ct : ℝ)
    (hne : keptSamples sol t_skip ≠ []) :
    (∀ s : ℝ × Y4, s ∈ keptSamples sol t_skip ↔ s ∈ sol.t.zip sol.y ∧ t_skip ≤ s.1)
    ∧ (computeStats sol t_skip v ct).xt_mean =
        some (((keptSamples sol t_skip).map fun s => s.2 0).sum
          / (((keptSamples sol t_skip).map fun s => s.2 0).length : ℝ))
    ∧ (computeStats sol t_skip v ct).xt_std =
        some (Real.sqrt (((((keptSamples sol t_skip).map fun s => s.2 0)).map fun x =>
            (x - ((keptSamples sol t_skip).map fun s => s.2 0).sum
              / (((keptSamples sol t_skip).map fun s => s.2 0).length : ℝ)) ^ 2).sum
          / (((keptSamples sol t_skip).map fun s => s.2 0).length : ℝ)))
    ∧ (computeStats sol t_skip v ct).xb_mean =
        some (((keptSamples sol t_skip).map fun s => s.2 2).sum
          / (((keptSamples sol t_skip).map fun s => s.2 2).length : ℝ))
    ∧ (computeStats sol t_skip v ct).xb_std =
        some (Real.sqrt (((((keptSamples sol t_skip).map fun s => s.2 2)).map fun x =>
            (x - ((keptSamples sol t_skip).map fun s => s.2 2).sum
              / (((keptSamples sol t_skip).map fun s => s.2 2).length : ℝ)) ^ 2).sum
          / (((keptSamples sol t_skip).map fun s => s.2 2).length : ℝ))) := by
  have hxt : ((keptSamples sol t_skip).map fun s => s.2 0) ≠ [] := by
    simpa using hne
  have hxb : ((keptSamples sol t_skip).map fun s => s.2 2) ≠ [] := by
    simpa using hne
  refine ⟨?_, ?_, ?_, ?_, ?_⟩
  · intro s
    simp [keptSamples, List.mem_filter]
  · show npMean _ = _
    exact npMean_of_ne_nil _ hxt
  · show npStd _ = _
    exact npStd_of_ne_nil _ hxt
  · show npMean _ = _
    exact npMean_of_ne_nil _ hxb
  · show npStd _ = _
    exact npStd_of_ne_nil _ hxb

/-- C9: when no sample satisfies `t ≥ t_skip`, the statistics step
returns nan (modelled as `none`) for the four means/standard deviations
and still returns normally — the source computes `np.mean`/`np.std` of
an empty slice, which is nan, not an exception. -/
theorem computeStats_empty (sol : IvpSol) (t_skip v ct : ℝ)
    (h : keptSamples sol t_skip = []) :
    computeStats sol t_skip v ct =
      { V_avg := v, CT_avg := ct, xt_mean := none, xt_std := none,
        xb_mean := none, xb_std := none } := by
  dsimp only [computeStats]
  rw [h]
  rfl

/-- C5, witness: on the ten-sample trajectory `solC5` with `t_skip = 6`,
exactly the last four samples qualify; over those four,
`xt_mean = (1+1+3+3)/4 = 2` and `xt_std = sqrt(4/4) = 1` (divisor 4, not
3), and `xb_mean = 2`, `xb_std = 0`. -/
theorem computeStats_population_witness :
    (computeStats solC5 6 0 0).xt_mean = some 2
    ∧ (computeStats solC5 6 0 0).xt_std = some 1
    ∧ (computeStats solC5 6 0 0).xb_mean = some 2
    ∧ (computeStats solC5 6 0 0).xb_std = some 0 := by
  have hkept : keptSamples solC5 6 =
      [((6 : ℝ), (![1, 0, 2, 0] : Y4)), (7, ![1, 0, 2, 0]),
       (8, ![3, 0, 2, 0]), (9, ![3, 0, 2, 0])] := by
    norm_num [keptSamples, solC5]
  have hne : keptSamples solC5 6 ≠ [] := by
    rw [hkept]
    exact List.cons_ne_nil _ _
  obtain ⟨-, h1, h2, h3, h4⟩ := computeStats_population solC5 6 0 0 hne
  rw [hkept] at h1 h2 h3 h4
  refine ⟨?_, ?_, ?_, ?_⟩
  · rw [h1]
    norm_num [Matrix.cons_val_zero, Matrix.cons_val_two, Matrix.head_cons, Matrix.vecTail]
  · rw [h2]
    norm_num [Matrix.cons_val_zero, Matrix.cons_val_two, Matrix.head_cons, Matrix.vecTail,
      Real.sqrt_one]
  · rw [h3]
    norm_num [Matrix.cons_val_zero, Matrix.cons_val_two, Matrix.tail_cons, Matrix.head_cons]
  · rw [h4]
    norm_num [Matrix.cons_val_zero, Matrix.cons_val_two, Matrix.tail_cons, Matrix.head_cons,
      Real.sqrt_zero]

/-- C9, witness: the one-sample trajectory `solC9` (its only time stamp
`5` is below `t_skip = 60`) yields nan (`none`) means and standard
deviations, with no failure. -/
theorem computeStats_empty_witness :
    computeStats solC9 60 1 2 =
      { V_avg := 1, CT_avg := 2, xt_mean := none, xt_std := none,
        xb_mean := none, xb_std := none } := by
  have h : keptSamples solC9 60 = [] := by
    norm_num [keptSamples, solC9]
  exact computeStats_empty solC9 60 1 2 h

/-- C6 (amended): a wind record with fewer than 2 time points fails — but
with the wind-interpolator construction error (interp1d requires at least
2 entries), not a dedicated time-span error — while a record with 2 or
more points whose `t_max` equals `t_min` is NOT rejected: the solver
finishes immediately and the simulation proceeds, returning the initial
state at every sample time; no `InvalidTimeSpan` check exists. -/
theorem simulate_timespan_behavior (oracle : Oracle) (p : Params) (ct_interp : ℝ → ℝ)
    (wind : List (ℝ × ℝ)) (t_skip : ℝ) :
    (wind.length < 2 →
      simulate_single_case oracle p ct_interp wind t_skip = .error .interpTooFewPoints)
    ∧ (2 ≤ wind.length → listMin (wind.map Prod.fst) = listMax (wind.map Prod.fst) →
        simulate_single_case oracle p ct_interp wind t_skip =
          .ok (⟨true, wind.map Prod.fst, (wind.map Prod.fst).map fun _ => (fun _ => 0 : Y4)⟩,
            computeStats
              ⟨true, wind.map Prod.fst, (wind.map Prod.fst).map fun _ => (fun _ => 0 : Y4)⟩
              t_skip ((wind.map Prod.snd).sum / ((wind.map Prod.snd).length : ℝ))
              (ct_interp ((wind.map Prod.snd).sum / ((wind.map Prod.snd).length : ℝ))))) := by
  constructor
  · intro h
    exact simulate_err_of_short oracle p ct_interp wind t_skip h
  · intro h2 heq
    have hwne : wind ≠ [] := by
      intro h0
      rw [h0] at h2
      simp at h2
    have hne : wind.map Prod.fst ≠ [] := by
      simpa using hwne
    have hch : listMin (wind.map Prod.fst) < listMax (wind.map Prod.fst) →
        (wind.map Prod.fst).Chain' (· < ·) := by
      intro hlt
      rw [heq] at hlt
      exact absurd hlt (lt_irrefl _)
    have hsolve := solve_ivp_checks_pass oracle
      (rhs p (ct_interp ((wind.map Prod.snd).sum / ((wind.map Prod.snd).length : ℝ)))
        (interp1d wind))
      (fun _ => 0) (wind.map Prod.fst) hne hch
    rw [if_pos heq] at hsolve
    exact simulate_ok_of_solve oracle p ct_interp wind t_skip _ (by omega) hsolve

/-- C6, counterexample: the two-sample record `windC6` has
`t_max = t_min = 5`, yet `simulate_single_case` returns a result instead
of failing with any error. -/
theorem simulate_timespan_counterexample :
    (simulate_single_case okOracle pEx ctOne windC6 60).toOption.isSome = true := by
  have hne : windC6.map Prod.fst ≠ [] := by simp [windC6]
  have hmin : listMin (windC6.map Prod.fst) = 5 := by
    norm_num [windC6, listMin, min_self]
  have hmax : listMax (windC6.map Prod.fst) = 5 := by
    norm_num [windC6, listMax, max_self]
  have heq : listMin (windC6.map Prod.fst) = listMax (windC6.map Prod.fst) := by
    rw [hmin, hmax]
  have hch : listMin (windC6.map Prod.fst) < listMax (windC6.map Prod.fst) →
      (windC6.map Prod.fst).Chain' (· < ·) := by
    intro hlt
    rw [heq] at hlt
    exact absurd hlt (lt_irrefl _)
  have hsolve := solve_ivp_checks_pass okOracle
    (rhs pEx (ctOne ((windC6.map Prod.snd).sum / ((windC6.map Prod.snd).length : ℝ)))
      (interp1d windC6))
    (fun _ => 0) (windC6.map Prod.fst) hne hch
  rw [if_pos heq] at hsolve
  rw [simulate_ok_of_solve okOracle pEx ctOne windC6 60 _ (by norm_num [windC6]) hsolve]
  rfl

/-- C6, witness for the amended statement: a one-sample record raises the
interpolator-construction error, and a degenerate-span two-sample record
(both stamps `7`) completes normally. -/
theorem simulate_timespan_behavior_witness :
    simulate_single_case okOracle pEx ctOne [((5 : ℝ), (10 : ℝ))] 60 =
      .error .interpTooFewPoints
    ∧ (simulate_single_case okOracle pEx ctOne [((7 : ℝ), (1 : ℝ)), (7, 2)] 60).toOption.isSome
        = true := by
  constructor
  · exact (simulate_timespan_behavior okOracle pEx ctOne [((5 : ℝ), (10 : ℝ))] 60).1
      (by norm_num)
  · have h := (simulate_timespan_behavior okOracle pEx ctOne [((7 : ℝ), (1 : ℝ)), (7, 2)] 60).2
      (by norm_num) (by norm_num [listMin, listMax, min_self, max_self])
    rw [h]
    rfl

/-- C7 (amended): `simulate_single_case` never inspects the solver's
success flag: for every solver outcome — including a failed or diverged
integration — a wind record with at least 2 samples and strictly
increasing times yields a returned trajectory-and-statistics value, and
no `IntegrationDiverged` error is ever raised. -/
theorem simulate_ignores_solver_status (oracle : Oracle) (p : Params) (ct_interp : ℝ → ℝ)
    (wind : List (ℝ × ℝ)) (t_skip : ℝ) (h2 : 2 ≤ wind.length)
    (hchain : (wind.map Prod.fst).Chain' (· < ·)) :
    (simulate_single_case oracle p ct_interp wind t_skip).toOption.isSome = true := by
  have hwne : wind ≠ [] := by
    intro h0
    rw [h0] at h2
    simp at h2
  have hne : wind.map Prod.fst ≠ [] := by
    simpa using hwne
  have hsolve := solve_ivp_checks_pass oracle
    (rhs p (ct_interp ((wind.map Prod.snd).sum / ((wind.map Prod.snd).length : ℝ)))
      (interp1d wind))
    (fun _ => 0) (wind.map Prod.fst) hne (fun _ => hchain)
  by_cases heq : listMin (wind.map Prod.fst) = listMax (wind.map Prod.fst)
  · rw [if_pos heq] at hsolve
    rw [simulate_ok_of_solve oracle p ct_interp wind t_skip _ (by omega) hsolve]
    rfl
  · rw [if_neg heq] at hsolve
    rw [simulate_ok_of_solve oracle p ct_interp wind t_skip _ (by omega) hsolve]
    rfl

/-- C7, counterexample: with a solver whose run fails (divergence /
unmet tolerance, scipy status `-1`), `simulate_single_case` still
returns a trajectory-and-statistics value instead of failing. -/
theorem simulate_diverged_counterexample :
    (simulate_single_case failOracle pEx ctOne windC7 60).toOption.isSome = true := by
  have hne : windC7.map Prod.fst ≠ [] := by simp [windC7]
  have hchain : (windC7.map Prod.fst).Chain' (· < ·) := by
    norm_num [windC7, List.chain'_cons]
  have hsolve := solve_ivp_checks_pass failOracle
    (rhs pEx (ctOne ((windC7.map Prod.snd).sum / ((windC7.map Prod.snd).length : ℝ)))
      (interp1d windC7))
    (fun _ => 0) (windC7.map Prod.fst) hne (fun _ => hchain)
  have hneq : ¬ (listMin (windC7.map Prod.fst) = listMax (windC7.map Prod.fst)) := by
    norm_num [windC7, listMin, listMax, min_def, max_def]
  rw [if_neg hneq] at hsolve
  rw [simulate_ok_of_solve failOracle pEx ctOne windC7 60 _ (by norm_num [windC7]) hsolve]
  rfl

/-- C7, witness for the amended statement: applied to the failing solver
on the increasing record `windC7` with `t_skip = 30`. -/
theorem simulate_ignores_solver_status_witness :
    (simulate_single_case failOracle pEx ctOne windC7 30).toOption.isSome = true :=
  simulate_ignores_solver_status failOracle pEx ctOne windC7 30 (by norm_num [windC7])
    (by norm_num [windC7, List.chain'_cons])

/-- If no required key is reported missing, every required key is
present. -/
theorem firstMissing_none :
    ∀ (ks : List String) (p : ParamMap), firstMissing p ks = none →
      ∀ k ∈ ks, (p k).isSome = true := by
  intro ks
  induction ks with
  | nil => intro p _ k hk; exact absurd hk (List.not_mem_nil k)
  | cons k0 ks ih =>
    intro p h k hk
    by_cases h0 : (p k0).isNone
    · exact absurd h (by simp [firstMissing, h0])
    · have hrec : firstMissing p ks = none := by
        simpa [firstMissing, h0] using h
      rcases List.mem_cons.mp hk with rfl | hk2
      · cases hpk : p k with
        | none => exact absurd (by simp [hpk]) h0
        | some v => simp [hpk]
      · exact ih p hrec k hk2

/-- The reported missing key is indeed absent and required. -/
theorem firstMissing_some :
    ∀ (ks : List String) (p : ParamMap) (k : String), firstMissing p ks = some k →
      p k = none ∧ k ∈ ks := by
  intro ks
  induction ks with
  | nil => intro p k h; exact absurd h (by simp [firstMissing])
  | cons k0 ks ih =>
    intro p k h
    by_cases h0 : (p k0).isNone
    · have hk : k0 = k := by
        simpa [firstMissing, h0] using h
      subst hk
      exact ⟨Option.eq_none_of_isNone h0, List.mem_cons_self k0 ks⟩
    · have hrec : firstMissing p ks = some k := by
        simpa [firstMissing, h0] using h
      obtain ⟨h1, h2⟩ := ih p k hrec
      exact ⟨h1, List.mem_cons_of_mem k0 h2⟩

/-- C8 (amended): after parsing, `rho` defaults to 1.22 exactly when it
was absent; `A` is recomputed as `pi*(Dr/2)^2` whenever `Dr` is present
— overwriting any parsed `A` — and is left as parsed only when `Dr` is
absent; when all of `{mt,mb,k1,k2,c1,c2,A,rho}` are then present the
mapping is returned with all of them present, and otherwise a
`MissingParameter`-style error names the first missing key, which is
indeed absent. -/
theorem load_parameters_behavior (p0 : ParamMap) :
    (p0 "rho" = none → withDefaults p0 "rho" = some 1.22)
    ∧ (∀ r, p0 "rho" = some r → withDefaults p0 "rho" = some r)
    ∧ (∀ d, p0 "Dr" = some d → withDefaults p0 "A" = some (Real.pi * (0.5 * d) ^ 2))
    ∧ (p0 "Dr" = none → withDefaults p0 "A" = p0 "A")
    ∧ (firstMissing (withDefaults p0) requiredKeys = none →
        load_parameters p0 = .ok (withDefaults p0)
        ∧ ∀ k ∈ requiredKeys, (withDefaults p0 k).isSome = true)
    ∧ (∀ k, firstMissing (withDefaults p0) requiredKeys = some k →
        load_parameters p0 = .error (.missingParameter k) ∧ withDefaults p0 k = none) := by
  refine ⟨?_, ?_, ?_, ?_, ?_, ?_⟩
  · intro h
    cases hd : p0 "Dr" with
    | none => simp [withDefaults, setParam, h, hd]
    | some d => simp [withDefaults, setParam, h, hd]
  · intro r h
    cases hd : p0 "Dr" with
    | none => simp [withDefaults, setParam, h, hd]
    | some d => simp [withDefaults, setParam, h, hd]
  · intro d h
    cases hr : p0 "rho" with
    | none => simp [withDefaults, setParam, h, hr]
    | some r => simp [withDefaults, setParam, h, hr]
  · intro h
    cases hr : p0 "rho" with
    | none => simp [withDefaults, setParam, h, hr]
    | some r => simp [withDefaults, setParam, h, hr]
  · intro h
    constructor
    · simp [load_parameters, h]
    · exact firstMissing_none requiredKeys (withDefaults p0) h
  · intro k h
    constructor
    · simp [load_parameters, h]
    · exact (firstMissing_some requiredKeys (withDefaults p0) k h).1

/-- C8, counterexample: in `pC8` both `A = 99` and `Dr = 0` were parsed;
the claim says `A` is derived only when `A` is absent, yet
`load_parameters` overwrites the parsed `A = 99` with
`pi*(0/2)^2 = 0`. -/
theorem load_parameters_overwrite_counterexample :
    pC8 "A" = some 99
    ∧ ((load_parameters pC8).toOption.map fun q => q "A") = some (some 0)
    ∧ some (0 : ℝ) ≠ some (99 : ℝ) := by
  refine ⟨rfl, ?_, by norm_num⟩
  have hok : load_parameters pC8 = .ok (withDefaults pC8) := rfl
  have hA : withDefaults pC8 "A" = some (Real.pi * (0.5 * 0) ^ 2) := rfl
  rw [hok]
  simp only [Except.toOption, Option.map]
  rw [hA]
  norm_num

/-- C8, witness for the amended statement: for `pC8b` (no `rho`, no `A`,
`Dr = 2`), `rho` defaults to 1.22, `A` becomes `pi*(2/2)^2`, and loading
succeeds with every required key present. -/
theorem load_parameters_behavior_witness :
    withDefaults pC8b "rho" = some 1.22
    ∧ withDefaults pC8b "A" = some (Real.pi * (0.5 * 2) ^ 2)
    ∧ load_parameters pC8b = .ok (withDefaults pC8b) := by
  obtain ⟨h1, -, h3, -, h5, -⟩ := load_parameters_behavior pC8b
  exact ⟨h1 rfl, h3 2 rfl, (h5 rfl).1⟩

/-- C10: `simulate_single_case` leaves its arguments unchanged — with
the shared parameter set and the wind record threaded through an
explicit state, the state after the call equals the state before it
(the source only reads them), and the returned value is the plain
simulation result, so both can be reused across the cases of a batch. -/
theorem simulate_preserves_arguments (oracle : Oracle) (ct_interp : ℝ → ℝ) (t_skip : ℝ)
    (s : Params × List (ℝ × ℝ)) :
    ((simulate_single_case_st oracle ct_interp t_skip).run s).2 = s
    ∧ ((simulate_single_case_st oracle ct_interp t_skip).run s).1 =
      simulate_single_case oracle s.1 ct_interp s.2 t_skip :=
  ⟨rfl, rfl⟩
